import Mathlib

/-!
Shallow embedding of `src/examples/job_shop_problem.py` (a CP-SAT job-shop
scheduling example) and proofs about it.

Conventions of the embedding:
* Python ints are `Int` (machine ids, durations, solver values); list
  indices produced by `enumerate` are `Nat`.
* A job is a list of `(machine, duration)` pairs; an instance is a list of
  jobs, exactly as in the Python data literals.
* Python exceptions are modelled by the `Except PyError` monad.
* CP-SAT model objects (`new_int_var`, `new_interval_var`, `add`,
  `add_no_overlap`, `add_max_equality`, `minimize`) are modelled by a pure
  `CpModel` record accumulating declarations and constraints in call order.
  A variable object is identified by the structured reference `VarRef`
  (its creation site), carrying the CP-SAT name string as data.
* Python `dict` / `collections.defaultdict(list)` are association lists
  with the corresponding lookup semantics.
-/

/-- The Python exceptions that the translated code can raise. -/
inductive PyError where
  | nameError
  | valueError
  | keyError
deriving DecidableEq, Repr

/-- CP-SAT solve statuses. -/
inductive CpStatus where
  | UNKNOWN
  | MODEL_INVALID
  | FEASIBLE
  | INFEASIBLE
  | OPTIMAL
deriving DecidableEq, Repr

abbrev Op := Int × Int

abbrev JobsData := List (List Op)

/-- All `(machine, duration)` pairs of the instance, in job/task order
(the Python generator `task for job in jd for task in job`). -/
def allOps (jd : JobsData) : List Op := jd.flatten

/-- Instance data as stored by `Data.__init__`. -/
structure Data where
  jobs_data : JobsData
  machines_count : Int
  horizon : Int
deriving DecidableEq, Repr

/-- Python `max` over a nonempty list (fold of the generator). -/
def pyMax (x : Int) (xs : List Int) : Int := xs.foldl max x

/-- `Data.__init__(self, _jobs_data)`. The body executes, in order:
`self.jobs_data = jobs_data` (NOTE: the *global* name `jobs_data`, not the
parameter `_jobs_data`; `NameError` when no such global is bound),
`self.machines_count = 1 + max(task[0] for job in _jobs_data for task in job)`
(`ValueError` when the generator is empty),
`self.all_machines = range(self.machines_count)` (derived, see `pyRange`),
`self.horizon = sum(task[1] for job in _jobs_data for task in job)`. -/
def Data.init (global_jobs_data : Option JobsData) (_jobs_data : JobsData) :
    Except PyError Data := do
  let jobs_data ← match global_jobs_data with
    | some g => Except.ok g
    | none => Except.error PyError.nameError
  let machines_count ← match allOps _jobs_data with
    | [] => Except.error PyError.valueError
    | t :: ts => Except.ok (1 + pyMax t.1 (ts.map Prod.fst))
  let horizon := ((allOps _jobs_data).map Prod.snd).sum
  Except.ok { jobs_data := jobs_data, machines_count := machines_count,
              horizon := horizon }

/-- Python `range(n)` for an `int` bound: empty when `n ≤ 0`. -/
def pyRange (n : Int) : List Int := (List.range n.toNat).map Int.ofNat

/-- `self.all_machines = range(self.machines_count)`. -/
def Data.all_machines (d : Data) : List Int := pyRange d.machines_count

/-- Identity of an integer variable created by the model builder:
the creation site in `createVars` (per task coordinate) or `createObj`. -/
inductive VarRef where
  | start (job_id task_id : Nat)
  | endv (job_id task_id : Nat)
  | makespan
deriving DecidableEq, Repr

/-- Identity of an interval variable created in `createVars`. -/
inductive IntervalRef where
  | interval (job_id task_id : Nat)
deriving DecidableEq, Repr

/-- A constraint posted on the model. -/
inductive Constr where
  | noOverlap (ivs : List IntervalRef)
  | geC (lhs rhs : VarRef)
  | maxEq (target : VarRef) (operands : List VarRef)
deriving DecidableEq, Repr

/-- The CP-SAT model state: integer variable declarations
`(ref, lb, ub, name)`, interval declarations
`(ref, start, duration, end, name)`, constraints, and the minimization
objective, each in call order. -/
structure CpModel where
  int_vars : List (VarRef × Int × Int × String)
  interval_vars : List (IntervalRef × VarRef × Int × VarRef × String)
  constraints : List Constr
  minimize_obj : Option VarRef
deriving DecidableEq, Repr

def CpModel.empty : CpModel :=
  { int_vars := [], interval_vars := [], constraints := [],
    minimize_obj := none }

/-- The namedtuple `task_type(start, end, interval)` stored in `all_tasks`. -/
structure TaskVars where
  start : VarRef
  endv : VarRef
  interval : IntervalRef
deriving DecidableEq, Repr

/-- Python dict lookup on an association list (`KeyError` handled at use
sites via the `Option`). -/
def dictLookup {α : Type} (m : List ((Nat × Nat) × α)) (k : Nat × Nat) :
    Option α :=
  (m.find? (fun p => p.1 == k)).map Prod.snd

/-- `collections.defaultdict(list)` lookup: a missing key reads as `[]`. -/
def ddLookup {α : Type} (m : List (Int × List α)) (k : Int) : List α :=
  match m.find? (fun p => p.1 == k) with
  | some p => p.2
  | none => []

/-- `defaultdict(list)`: `m[k].append(v)`, vivifying a fresh bucket at the
end of the insertion order when `k` is absent. -/
def ddAppend {α : Type} (m : List (Int × List α)) (k : Int) (v : α) :
    List (Int × List α) :=
  match m with
  | [] => [(k, [v])]
  | p :: rest =>
    if p.1 == k then (p.1, p.2 ++ [v]) :: rest
    else p :: ddAppend rest k v

/-- `defaultdict(list)`: `m[k] = v` after vivification (used by the in-place
`assigned_jobs[machine].sort()` in `format_solution`). -/
def ddSet {α : Type} (m : List (Int × List α)) (k : Int) (v : List α) :
    List (Int × List α) :=
  match m with
  | [] => [(k, v)]
  | p :: rest =>
    if p.1 == k then (p.1, v) :: rest
    else p :: ddSet rest k v

/-- The `enumerate` coordinates of one job's tasks, starting at `task_id = t`. -/
def enumJob (j : Nat) : Nat → List Op → List ((Nat × Nat) × Op)
  | _, [] => []
  | t, task :: rest => ((j, t), task) :: enumJob j (t + 1) rest

/-- The `enumerate` coordinates of all tasks of all jobs from `job_id = j`. -/
def enumTasksFrom : Nat → JobsData → List ((Nat × Nat) × Op)
  | _, [] => []
  | j, job :: rest => enumJob j 0 job ++ enumTasksFrom (j + 1) rest

/-- The doubly-nested `enumerate` loop order of the source. -/
def enumTasks (jd : JobsData) : List ((Nat × Nat) × Op) := enumTasksFrom 0 jd

/-- The variable triple created for coordinate `(j, t)`. -/
def taskVarsFor (j t : Nat) : TaskVars :=
  { start := VarRef.start j t, endv := VarRef.endv j t,
    interval := IntervalRef.interval j t }

/-- State populated by `createVars`: `self.model`, `self.all_tasks`,
`self.machine_to_intervals`. -/
structure BuildState where
  model : CpModel
  all_tasks : List ((Nat × Nat) × TaskVars)
  machine_to_intervals : List (Int × List IntervalRef)
deriving Repr

/-- One iteration of the nested loop body in `createVars`: creates
`start`/`end` int vars over `[0, horizon]` and a linked interval of length
`duration` with suffix `_{job_id}_{task_id}` names, stores the triple in
`all_tasks[job_id, task_id]`, and appends the interval to
`machine_to_intervals[machine]`. -/
def varsStep (horizon : Int) (st : BuildState) (x : (Nat × Nat) × Op) :
    BuildState :=
  let j := x.1.1
  let t := x.1.2
  let machine := x.2.1
  let duration := x.2.2
  let sfx := "_" ++ Nat.repr j ++ "_" ++ Nat.repr t
  { model :=
      { st.model with
        int_vars := st.model.int_vars ++
          [(VarRef.start j t, 0, horizon, "start" ++ sfx),
           (VarRef.endv j t, 0, horizon, "end" ++ sfx)],
        interval_vars := st.model.interval_vars ++
          [(IntervalRef.interval j t, VarRef.start j t, duration,
            VarRef.endv j t, "interval" ++ sfx)] },
    all_tasks := st.all_tasks ++ [((j, t), taskVarsFor j t)],
    machine_to_intervals :=
      ddAppend st.machine_to_intervals machine (IntervalRef.interval j t) }

/-- `JSPModel.createVars`, starting from the fresh model of
`JSPModel.__init__`; iterates `self.data.jobs_data`. -/
def createVars (d : Data) : BuildState :=
  (enumTasks d.jobs_data).foldl (varsStep d.horizon)
    { model := CpModel.empty, all_tasks := [], machine_to_intervals := [] }

/-- The precedence loop body for one job `j`, at `task_id = t`, with `k`
iterations of `range(len(job) - 1)` remaining: looks up
`all_tasks[job_id, task_id + 1]` and `all_tasks[job_id, task_id]` in the
dict (`KeyError` when absent) and posts
`start(task_id + 1) >= end(task_id)`. -/
def precJobGo (tasks : List ((Nat × Nat) × TaskVars)) (j : Nat) :
    Nat → Nat → Except PyError (List Constr)
  | _, 0 => Except.ok []
  | t, k + 1 =>
    match dictLookup tasks (j, t + 1), dictLookup tasks (j, t) with
    | some tv1, some tv0 =>
      (precJobGo tasks j (t + 1) k).map
        (fun rest => Constr.geC tv1.start tv0.endv :: rest)
    | _, _ => Except.error PyError.keyError

/-- `for task_id in range(len(job) - 1): ...` for job `j`. -/
def precJob (tasks : List ((Nat × Nat) × TaskVars)) (j : Nat) (len : Nat) :
    Except PyError (List Constr) :=
  precJobGo tasks j 0 (len - 1)

/-- The outer precedence loop over `enumerate(self.data.jobs_data)`
starting at `job_id = j`. -/
def precAll (tasks : List ((Nat × Nat) × TaskVars)) :
    Nat → JobsData → Except PyError (List Constr)
  | _, [] => Except.ok []
  | j, job :: rest => do
    let a ← precJob tasks j job.length
    let b ← precAll tasks (j + 1) rest
    Except.ok (a ++ b)

/-- `JSPModel.createConstrs`: first, for every machine in
`self.data.all_machines`, `add_no_overlap(self.machine_to_intervals[machine])`
(a `defaultdict` read, so a machine with no interval contributes `[]`);
then the per-job precedence constraints. -/
def createConstrs (d : Data) (st : BuildState) : Except PyError CpModel := do
  let m1 : CpModel :=
    { st.model with
      constraints := st.model.constraints ++
        d.all_machines.map
          (fun machine =>
            Constr.noOverlap (ddLookup st.machine_to_intervals machine)) }
  let precs ← precAll st.all_tasks 0 d.jobs_data
  Except.ok { m1 with constraints := m1.constraints ++ precs }

/-- The list comprehension
`[self.all_tasks[job_id, len(job) - 1].end for job_id, job in enumerate(...)]`
from `job_id = j` on. For an empty job Python looks up key
`(job_id, -1)`, which is absent from `all_tasks`, so `KeyError` either way. -/
def lastEnds (tasks : List ((Nat × Nat) × TaskVars)) :
    Nat → JobsData → Except PyError (List VarRef)
  | _, [] => Except.ok []
  | j, job :: rest =>
    match dictLookup tasks (j, job.length - 1) with
    | some tv =>
      (lastEnds tasks (j + 1) rest).map (fun r => tv.endv :: r)
    | none => Except.error PyError.keyError

/-- `JSPModel.createObj`: `obj_var = new_int_var(0, horizon, "makespan")`,
then `add_max_equality(obj_var, [last end of every job])`, then
`minimize(obj_var)`. -/
def createObj (d : Data) (tasks : List ((Nat × Nat) × TaskVars))
    (m : CpModel) : Except PyError CpModel := do
  let m1 : CpModel :=
    { m with int_vars := m.int_vars ++ [(VarRef.makespan, 0, d.horizon, "makespan")] }
  let ends ← lastEnds tasks 0 d.jobs_data
  let m2 : CpModel :=
    { m1 with constraints := m1.constraints ++ [Constr.maxEq VarRef.makespan ends] }
  Except.ok { m2 with minimize_obj := some VarRef.makespan }

/-- The namedtuple `assigned_task_type(start, job, index, duration)`. -/
structure AssignedTask where
  start : Int
  job : Nat
  index : Nat
  duration : Int
deriving DecidableEq, Repr

/-- One iteration of the extraction loop: reads the resolved value of
`all_tasks[job_id, task_id].start` and appends
`assigned_task_type(start, job_id, task_id, duration)` to
`assigned_jobs[machine]`. -/
def extractStep (value : VarRef → Int) (tasks : List ((Nat × Nat) × TaskVars))
    (acc : List (Int × List AssignedTask)) (x : (Nat × Nat) × Op) :
    Except PyError (List (Int × List AssignedTask)) :=
  match dictLookup tasks x.1 with
  | some tv =>
    Except.ok (ddAppend acc x.2.1
      { start := value tv.start, job := x.1.1, index := x.1.2,
        duration := x.2.2 })
  | none => Except.error PyError.keyError

/-- `JSPModel.extract_solution`: returns `None` unless the stored status is
`OPTIMAL` or `FEASIBLE`; otherwise iterates `enumerate(self.data.jobs_data)`
building the `defaultdict(list)` of assigned tasks per machine. -/
def extract_solution (status : CpStatus) (value : VarRef → Int) (d : Data)
    (tasks : List ((Nat × Nat) × TaskVars)) :
    Except PyError (Option (List (Int × List AssignedTask))) :=
  if ¬(status = CpStatus.OPTIMAL ∨ status = CpStatus.FEASIBLE) then
    Except.ok none
  else
    ((enumTasks d.jobs_data).foldlM (extractStep value tasks) []).map
      (fun buckets => some buckets)

/-- Python tuple comparison `<=` on
`assigned_task_type(start, job, index, duration)`: lexicographic over the
four fields in declaration order (the comparison `list.sort()` uses). -/
def taskLe (a b : AssignedTask) : Bool :=
  if a.start < b.start then true
  else if b.start < a.start then false
  else if a.job < b.job then true
  else if b.job < a.job then false
  else if a.index < b.index then true
  else if b.index < a.index then false
  else a.duration ≤ b.duration

/-- `assigned_jobs[machine].sort()`: Python's stable sort under tuple order. -/
def pySort (l : List AssignedTask) : List AssignedTask := l.mergeSort taskLe

/-- Left-justifying format `f"{s:15}"`: pad with spaces to width `w`
(no truncation). -/
def padRight (s : String) (w : Nat) : String :=
  s ++ String.mk (List.replicate (w - s.length) ' ')

/-- `f"job_{assigned_task.job}_task_{assigned_task.index}"`. -/
def taskName (a : AssignedTask) : String :=
  "job_" ++ Nat.repr a.job ++ "_task_" ++ Nat.repr a.index

/-- `f"[{start},{start + duration}]"`. -/
def intervalStr (a : AssignedTask) : String :=
  "[" ++ Int.repr a.start ++ "," ++ Int.repr (a.start + a.duration) ++ "]"

/-- The two-line block emitted for one machine from its (already sorted)
task list: the `Machine k: ` name row and the 11-space-indented interval
row, each column left-justified to width 15, each row newline-terminated. -/
def formatMachine (sorted : List AssignedTask) (machine : Int) : String :=
  let sol_line_tasks :=
    sorted.foldl (fun acc a => acc ++ padRight (taskName a) 15)
      ("Machine " ++ Int.repr machine ++ ": ")
  let sol_line :=
    sorted.foldl (fun acc a => acc ++ padRight (intervalStr a) 15)
      (String.mk (List.replicate 11 ' '))
  (sol_line_tasks ++ "\n") ++ (sol_line ++ "\n")

/-- One iteration of the `for machine in self.data.all_machines` loop of
`format_solution`: `assigned_jobs[machine].sort()` (vivifying and mutating
the bucket in place — the state component records this), then the block for
that machine is appended to `output`. -/
def formatStep (acc : String × List (Int × List AssignedTask)) (machine : Int) :
    String × List (Int × List AssignedTask) :=
  let sorted := pySort (ddLookup acc.2 machine)
  (acc.1 ++ formatMachine sorted machine, ddSet acc.2 machine sorted)

/-- `JSPModel.format_solution(assigned_jobs)`: returns the built `output`
string, paired with the post-call state of the (mutated) `assigned_jobs`
mapping. -/
def format_solution (d : Data) (assigned_jobs : List (Int × List AssignedTask)) :
    String × List (Int × List AssignedTask) :=
  d.all_machines.foldl formatStep ("", assigned_jobs)

/-! ### Lemmas about `Data.__init__` -/

theorem Data.init_none (x : JobsData) :
    Data.init none x = Except.error PyError.nameError := rfl

theorem Data.init_some_nil (g x) (h : allOps x = []) :
    Data.init (some g) x = Except.error PyError.valueError := by
  unfold Data.init
  rw [h]
  rfl

theorem Data.init_some_cons (g x) (t : Op) (ts : List Op)
    (h : allOps x = t :: ts) :
    Data.init (some g) x =
      Except.ok { jobs_data := g,
                  machines_count := 1 + pyMax t.1 (ts.map Prod.fst),
                  horizon := ((t :: ts).map Prod.snd).sum } := by
  unfold Data.init
  rw [h]
  rfl

theorem le_pyMax_self (x : Int) (xs : List Int) : x ≤ pyMax x xs := by
  induction xs generalizing x with
  | nil => exact le_refl x
  | cons a l ih =>
    calc x ≤ max x a := le_max_left x a
    _ ≤ pyMax (max x a) l := ih (max x a)

theorem le_pyMax_of_mem :
    ∀ (x : Int) (xs : List Int) (y : Int), y ∈ xs → y ≤ pyMax x xs := by
  intro x xs
  induction xs generalizing x with
  | nil => intro y h; cases h
  | cons a l ih =>
    intro y h
    rcases List.mem_cons.mp h with h1 | h2
    · subst h1
      exact le_trans (le_max_right x y) (le_pyMax_self _ l)
    · exact ih (max x a) y h2

theorem pyMax_mem (x : Int) (xs : List Int) :
    pyMax x xs = x ∨ pyMax x xs ∈ xs := by
  induction xs generalizing x with
  | nil => exact Or.inl rfl
  | cons a l ih =>
    have hc : pyMax x (a :: l) = pyMax (max x a) l := rfl
    rw [hc]
    rcases ih (max x a) with h | h
    · rcases max_choice x a with hm | hm
      · exact Or.inl (h.trans hm)
      · refine Or.inr ?_
        rw [h, hm]
        exact List.mem_cons_self a l
    · exact Or.inr (List.mem_cons_of_mem a h)

/-- `Except.ok`-test (`isOk`). -/
def exOk {ε α : Type} : Except ε α → Bool
  | Except.ok _ => true
  | Except.error _ => false

/-- Inversion of a successful `Data.__init__`. -/
theorem Data.init_ok_inv (g x : JobsData) (d : Data)
    (h : Data.init (some g) x = Except.ok d) :
    ∃ t ts, allOps x = t :: ts ∧ d.jobs_data = g ∧
      d.machines_count = 1 + pyMax t.1 (ts.map Prod.fst) ∧
      d.horizon = ((t :: ts).map Prod.snd).sum := by
  cases hops : allOps x with
  | nil =>
    rw [Data.init_some_nil g x hops] at h
    cases h
  | cons t ts =>
    rw [Data.init_some_cons g x t ts hops] at h
    refine ⟨t, ts, rfl, ?_, ?_, ?_⟩ <;>
      cases h <;> rfl

/-- The main-block data of the repository. -/
def jd0 : JobsData :=
  [[(0, 3), (1, 2), (2, 2)], [(0, 2), (2, 1), (1, 4)], [(1, 4), (2, 3)]]

/-- The `Data` instance the main block constructs from `jd0`. -/
def data0 : Data :=
  { jobs_data := jd0, machines_count := 3, horizon := 21 }

/-- C1 counterexample: contrary to the claim, `Data.__init__` performs no
validation. A job whose single operation has a negative machine id and a
zero duration is accepted and the instance is constructed; an empty job
list does fail, but with Python's built-in `ValueError` (raised by `max()`
on an empty sequence), not with an `InvalidInstanceError`, a class that
exists nowhere in the code. -/
theorem data_init_no_validation_cex :
    Data.init (some [[(0, 3)]]) [[(-1, 0)]] =
      Except.ok { jobs_data := [[(0, 3)]], machines_count := 0, horizon := 0 } ∧
    Data.init (some [[(0, 3)]]) [[(0, 0)]] =
      Except.ok { jobs_data := [[(0, 3)]], machines_count := 1, horizon := 0 } ∧
    Data.init (some [[(0, 3)]]) [] = Except.error PyError.valueError := by
  exact ⟨rfl, rfl, rfl⟩

/-- C1 (amended): `Data.__init__` performs no validation and no
`InvalidInstanceError` exists. Construction with an empty job list (more
generally, with any argument containing no operation at all) fails with
`ValueError` from `max()` over an empty sequence; construction from any
argument with at least one operation succeeds — in particular a zero
duration or a negative machine id is accepted, not rejected. -/
theorem data_init_amended :
    (∀ (g x : JobsData), allOps x = [] →
      Data.init (some g) x = Except.error PyError.valueError) ∧
    (∀ (g x : JobsData), allOps x ≠ [] → exOk (Data.init (some g) x) = true) := by
  constructor
  · intro g x h
    exact Data.init_some_nil g x h
  · intro g x h
    cases hops : allOps x with
    | nil => exact absurd hops h
    | cons t ts =>
      rw [Data.init_some_cons g x t ts hops]
      rfl

/-- Witness for `data_init_amended` at concrete inputs. -/
theorem data_init_amended_witness :
    Data.init (some jd0) [] = Except.error PyError.valueError ∧
    exOk (Data.init (some jd0) [[(0, 0)]]) = true :=
  ⟨data_init_amended.1 jd0 [] rfl,
   data_init_amended.2 jd0 [[(0, 0)]] (by decide)⟩

/-- The sum of all durations, as a per-job nested sum. -/
theorem allOps_durations_sum (x : JobsData) :
    ((allOps x).map Prod.snd).sum =
      (x.map (fun job => (job.map Prod.snd).sum)).sum := by
  unfold allOps
  rw [List.map_flatten, List.sum_flatten, List.map_map]
  rfl

/-- C6: for every accepted instance, `machines_count` is exactly one more
than the maximum machine id referenced by any operation of the constructor
argument (it bounds every machine id from above and is attained by some
operation), and `horizon` is the sum of all operation durations across all
jobs of the argument. -/
theorem data_derived_attrs (g x : JobsData) (d : Data)
    (h : Data.init (some g) x = Except.ok d) :
    (∀ op ∈ allOps x, op.1 + 1 ≤ d.machines_count) ∧
    (∃ op ∈ allOps x, d.machines_count = op.1 + 1) ∧
    d.horizon = (x.map (fun job => (job.map Prod.snd).sum)).sum := by
  obtain ⟨t, ts, hops, _, hmc, hhz⟩ := Data.init_ok_inv g x d h
  refine ⟨?_, ?_, ?_⟩
  · intro op hop
    rw [hops] at hop
    rw [hmc]
    rcases List.mem_cons.mp hop with h1 | h2
    · subst h1
      have := le_pyMax_self op.1 (ts.map Prod.fst)
      omega
    · have := le_pyMax_of_mem t.1 (ts.map Prod.fst) op.1
        (List.mem_map_of_mem Prod.fst h2)
      omega
  · rw [hops, hmc]
    rcases pyMax_mem t.1 (ts.map Prod.fst) with h1 | h1
    · exact ⟨t, List.mem_cons_self t ts, by omega⟩
    · obtain ⟨op, hmem, hval⟩ := List.mem_map.mp h1
      exact ⟨op, List.mem_cons_of_mem t hmem, by omega⟩
  · rw [hhz, ← hops, allOps_durations_sum]

/-- Witness for `data_derived_attrs`: the repository's main-block instance. -/
theorem data_derived_attrs_witness :
    data0.horizon = (jd0.map (fun job => (job.map Prod.snd).sum)).sum :=
  (data_derived_attrs jd0 jd0 data0 rfl).2.2

/-- C9: `Data.__init__` binds the stored `jobs_data` attribute to the
module-level global `jobs_data` — raising `NameError` when no such global
is bound — while `machines_count` and `horizon` are computed from the
`_jobs_data` argument; consequently an instance constructed from an
argument that differs from the global is internally inconsistent (its
`horizon` is not the duration sum of its own `jobs_data`). -/
theorem data_init_global_binding :
    (∀ x : JobsData, Data.init none x = Except.error PyError.nameError) ∧
    (∀ (g x : JobsData) (d : Data), Data.init (some g) x = Except.ok d →
      d.jobs_data = g ∧
      (∀ t ts, allOps x = t :: ts →
        d.machines_count = 1 + pyMax t.1 (ts.map Prod.fst)) ∧
      d.horizon = ((allOps x).map Prod.snd).sum) ∧
    (∃ d : Data, Data.init (some [[(0, 3)]]) [[(0, 5)]] = Except.ok d ∧
      d.jobs_data ≠ [[(0, 5)]] ∧
      d.horizon ≠ ((allOps d.jobs_data).map Prod.snd).sum) := by
  refine ⟨fun x => Data.init_none x, ?_, ?_⟩
  · intro g x d h
    obtain ⟨t, ts, hops, hjd, hmc, hhz⟩ := Data.init_ok_inv g x d h
    refine ⟨hjd, ?_, by rw [hhz, hops]⟩
    intro t' ts' hops'
    rw [hops] at hops'
    cases hops'
    exact hmc
  · exact ⟨{ jobs_data := [[(0, 3)]], machines_count := 1, horizon := 5 },
      rfl, by decide, by decide⟩

/-- Witness for `data_init_global_binding`: the theorem applied to the
undefined-global case and to the main-block instance. -/
theorem data_init_global_binding_witness :
    Data.init none jd0 = Except.error PyError.nameError ∧
    data0.jobs_data = jd0 :=
  ⟨data_init_global_binding.1 jd0,
   (data_init_global_binding.2.1 jd0 jd0 data0 rfl).1⟩

/-! ### The `all_tasks` dictionary built by `createVars` -/

theorem foldl_varsStep_all_tasks (h : Int) :
    ∀ (l : List ((Nat × Nat) × Op)) (st : BuildState),
      (l.foldl (varsStep h) st).all_tasks =
        st.all_tasks ++ l.map (fun x => (x.1, taskVarsFor x.1.1 x.1.2)) := by
  intro l
  induction l with
  | nil => intro st; simp
  | cons x rest ih =>
    intro st
    rw [List.foldl_cons, ih]
    simp [varsStep]

theorem foldl_varsStep_constraints (h : Int) :
    ∀ (l : List ((Nat × Nat) × Op)) (st : BuildState),
      (l.foldl (varsStep h) st).model.constraints = st.model.constraints := by
  intro l
  induction l with
  | nil => intro st; rfl
  | cons x rest ih =>
    intro st
    rw [List.foldl_cons, ih]
    rfl

theorem createVars_all_tasks (d : Data) :
    (createVars d).all_tasks =
      (enumTasks d.jobs_data).map (fun x => (x.1, taskVarsFor x.1.1 x.1.2)) := by
  unfold createVars
  rw [foldl_varsStep_all_tasks]
  rfl

theorem createVars_constraints (d : Data) :
    (createVars d).model.constraints = [] := by
  unfold createVars
  rw [foldl_varsStep_constraints]
  rfl

theorem enumJob_find? (j : Nat) (job : List Op) :
    ∀ (t0 j' t : Nat),
      ((enumJob j t0 job).map (fun x => (x.1, taskVarsFor x.1.1 x.1.2))).find?
          (fun p => p.1 == (j', t)) =
        if j' = j ∧ t0 ≤ t ∧ t - t0 < job.length
        then some ((j', t), taskVarsFor j' t) else none := by
  induction job with
  | nil => intro t0 j' t; simp [enumJob]
  | cons task rest ih =>
    intro t0 j' t
    show (((j, t0), taskVarsFor j t0) ::
      (enumJob j (t0 + 1) rest).map (fun x => (x.1, taskVarsFor x.1.1 x.1.2))).find? _ = _
    by_cases hk : (j, t0) = (j', t)
    · rw [List.find?_cons_of_pos _ (by simp [hk])]
      have h1 : j' = j := by
        have := congrArg Prod.fst hk
        simpa using this.symm
      have h2 : t = t0 := by
        have := congrArg Prod.snd hk
        simpa using this.symm
      subst h1
      subst h2
      simp [hk]
    · rw [List.find?_cons_of_neg _ (by simp [hk]), ih (t0 + 1) j' t]
      have hk' : ¬(j' = j ∧ t = t0) := by
        intro hc
        exact hk (by simp [hc.1, hc.2])
      by_cases ha : j' = j ∧ t0 + 1 ≤ t ∧ t - (t0 + 1) < rest.length
      · rw [if_pos ha, if_pos ⟨ha.1, by omega, by simp; omega⟩]
      · rw [if_neg ha, if_neg ?_]
        intro hb
        simp at hb
        exact ha ⟨hb.1, by omega, by omega⟩

theorem enumTasksFrom_find? :
    ∀ (jd : JobsData) (j0 j t : Nat),
      ((enumTasksFrom j0 jd).map (fun x => (x.1, taskVarsFor x.1.1 x.1.2))).find?
          (fun p => p.1 == (j, t)) =
        if j0 ≤ j then
          (jd[j - j0]?).bind (fun job =>
            if t < job.length then some ((j, t), taskVarsFor j t) else none)
        else none := by
  intro jd
  induction jd with
  | nil =>
    intro j0 j t
    simp [enumTasksFrom]
  | cons job rest ih =>
    intro j0 j t
    show ((enumJob j0 0 job ++ enumTasksFrom (j0 + 1) rest).map _).find? _ = _
    rw [List.map_append, List.find?_append, enumJob_find?, ih (j0 + 1) j t]
    by_cases hj : j = j0
    · subst hj
      by_cases hlen : t < job.length
      · rw [if_pos ⟨rfl, by omega, by omega⟩]
        simp [hlen]
      · rw [if_neg (by simp; omega), if_neg (by omega), if_pos (le_refl j)]
        simp [hlen]
    · rw [if_neg (by simp [hj])]
      by_cases hle : j0 ≤ j
      · rw [if_pos (by omega), if_pos hle]
        have hidx : j - j0 = (j - (j0 + 1)) + 1 := by omega
        rw [hidx]
        simp
      · rw [if_neg (by omega), if_neg hle]
        simp

/-- Characterization of `self.all_tasks[job_id, task_id]` after
`createVars`: present exactly when the coordinate addresses an operation
of `self.data.jobs_data`, and equal to that coordinate's variable triple. -/
theorem allTasks_lookup (d : Data) (j t : Nat) :
    dictLookup (createVars d).all_tasks (j, t) =
      (d.jobs_data[j]?).bind (fun job =>
        if t < job.length then some (taskVarsFor j t) else none) := by
  rw [createVars_all_tasks]
  unfold dictLookup enumTasks
  rw [enumTasksFrom_find?]
  rw [if_pos (Nat.zero_le j)]
  simp only [Nat.sub_zero]
  cases hjd : d.jobs_data[j]? with
  | none => simp
  | some job =>
    by_cases hlen : t < job.length
    · simp [hlen]
    · simp [hlen]

/-! ### Precedence constraints (`createConstrs`) -/

/-- The precedence constraints the inner loop posts for job `j` from
`task_id = t`, `k` iterations remaining. -/
def precExpectedJob (j : Nat) : Nat → Nat → List Constr
  | _, 0 => []
  | t, k + 1 =>
    Constr.geC (VarRef.start j (t + 1)) (VarRef.endv j t) ::
      precExpectedJob j (t + 1) k

/-- The precedence constraints the outer loop posts from `job_id = j` on. -/
def precExpected : Nat → JobsData → List Constr
  | _, [] => []
  | j, job :: rest =>
    precExpectedJob j 0 (job.length - 1) ++ precExpected (j + 1) rest

theorem precJobGo_eq (d : Data) (j : Nat) (job : List Op)
    (hjob : d.jobs_data[j]? = some job) :
    ∀ (k t : Nat), t + k ≤ job.length - 1 →
      precJobGo (createVars d).all_tasks j t k =
        Except.ok (precExpectedJob j t k) := by
  intro k
  induction k with
  | zero => intro t _; rfl
  | succ k ih =>
    intro t hk
    have h1 : dictLookup (createVars d).all_tasks (j, t + 1) =
        some (taskVarsFor j (t + 1)) := by
      rw [allTasks_lookup, hjob]
      simp
      omega
    have h0 : dictLookup (createVars d).all_tasks (j, t) =
        some (taskVarsFor j t) := by
      rw [allTasks_lookup, hjob]
      simp
      omega
    show (match dictLookup (createVars d).all_tasks (j, t + 1),
            dictLookup (createVars d).all_tasks (j, t) with
      | some tv1, some tv0 =>
        (precJobGo (createVars d).all_tasks j (t + 1) k).map
          (fun rest => Constr.geC tv1.start tv0.endv :: rest)
      | _, _ => Except.error PyError.keyError) = _
    rw [h1, h0, ih (t + 1) (by omega)]
    rfl

theorem precAll_eq (d : Data) :
    ∀ (sub : JobsData) (j0 : Nat),
      (∀ (i : Nat) (job : List Op), sub[i]? = some job →
        d.jobs_data[j0 + i]? = some job) →
      precAll (createVars d).all_tasks j0 sub =
        Except.ok (precExpected j0 sub) := by
  intro sub
  induction sub with
  | nil => intro j0 _; rfl
  | cons job rest ih =>
    intro j0 hsub
    have hjob : d.jobs_data[j0]? = some job := by
      have := hsub 0 job (by simp)
      simpa using this
    have hrest : ∀ (i : Nat) (job' : List Op), rest[i]? = some job' →
        d.jobs_data[(j0 + 1) + i]? = some job' := by
      intro i job' hi
      have := hsub (i + 1) job' (by simpa using hi)
      have harith : j0 + (i + 1) = (j0 + 1) + i := by omega
      rwa [harith] at this
    show (do
      let a ← precJob (createVars d).all_tasks j0 job.length
      let b ← precAll (createVars d).all_tasks (j0 + 1) rest
      Except.ok (a ++ b)) = _
    unfold precJob
    rw [precJobGo_eq d j0 job hjob (job.length - 1) 0 (by omega), ih (j0 + 1) hrest]
    rfl

theorem mem_precExpectedJob (j : Nat) :
    ∀ (k t : Nat) (c : Constr),
      c ∈ precExpectedJob j t k ↔
        ∃ i, i < k ∧
          c = Constr.geC (VarRef.start j (t + i + 1)) (VarRef.endv j (t + i)) := by
  intro k
  induction k with
  | zero => intro t c; simp [precExpectedJob]
  | succ k ih =>
    intro t c
    show c ∈ _ :: precExpectedJob j (t + 1) k ↔ _
    rw [List.mem_cons, ih (t + 1)]
    constructor
    · rintro (h | ⟨i, hi, hc⟩)
      · exact ⟨0, by omega, by simpa using h⟩
      · refine ⟨i + 1, by omega, ?_⟩
        rw [hc]
        have e1 : t + 1 + i = t + (i + 1) := by omega
        rw [e1]
    · rintro ⟨i, hi, hc⟩
      cases i with
      | zero => exact Or.inl (by simpa using hc)
      | succ i =>
        refine Or.inr ⟨i, by omega, ?_⟩
        rw [hc]
        have e1 : t + (i + 1) = t + 1 + i := by omega
        rw [e1]

theorem mem_precExpected :
    ∀ (sub : JobsData) (j0 : Nat) (c : Constr),
      c ∈ precExpected j0 sub ↔
        ∃ (i : Nat) (job : List Op) (t : Nat), sub[i]? = some job ∧
          t + 1 < job.length ∧
          c = Constr.geC (VarRef.start (j0 + i) (t + 1))
                (VarRef.endv (j0 + i) t) := by
  intro sub
  induction sub with
  | nil => intro j0 c; simp [precExpected]
  | cons job rest ih =>
    intro j0 c
    show c ∈ precExpectedJob j0 0 (job.length - 1) ++ precExpected (j0 + 1) rest ↔ _
    rw [List.mem_append, mem_precExpectedJob, ih (j0 + 1)]
    constructor
    · rintro (⟨i, hi, hc⟩ | ⟨i, job', t, hjob', ht, hc⟩)
      · refine ⟨0, job, i, by simp, by omega, ?_⟩
        rw [hc]
        have e0 : (0 : Nat) + i = i := by omega
        have ej : j0 + 0 = j0 := by omega
        rw [e0, ej]
      · refine ⟨i + 1, job', t, by simpa using hjob', ht, ?_⟩
        rw [hc]
        have e1 : j0 + 1 + i = j0 + (i + 1) := by omega
        rw [e1]
    · rintro ⟨i, job', t, hjob', ht, hc⟩
      cases i with
      | zero =>
        have hj : job = job' := by simpa using hjob'
        subst hj
        refine Or.inl ⟨t, by omega, ?_⟩
        rw [hc]
        have e0 : (0 : Nat) + t = t := by omega
        have ej : j0 + 0 = j0 := by omega
        rw [e0, ej]
      | succ i =>
        refine Or.inr ⟨i, job', t, by simpa using hjob', ht, ?_⟩
        rw [hc]
        have e1 : j0 + (i + 1) = j0 + 1 + i := by omega
        rw [e1]

/-- C2: `createConstrs` always succeeds on the state built by `createVars`,
and on success the linear `geC` constraints it posted are exactly the
within-job precedences: for every job and every consecutive operation pair
`(task_id, task_id + 1)` of that job the constraint
`start(task_id + 1) ≥ end(task_id)` is posted, and every posted `geC`
constraint relates the `start` and `end` variables of two consecutive
operations of one and the same job — none relates different jobs. -/
theorem createConstrs_precedence :
    (∀ d : Data, exOk (createConstrs d (createVars d)) = true) ∧
    (∀ (d : Data) (m : CpModel),
      createConstrs d (createVars d) = Except.ok m →
      (∀ (j t : Nat) (job : List Op), d.jobs_data[j]? = some job →
        t + 1 < job.length →
        Constr.geC (VarRef.start j (t + 1)) (VarRef.endv j t) ∈ m.constraints) ∧
      (∀ a b : VarRef, Constr.geC a b ∈ m.constraints →
        ∃ (j t : Nat) (job : List Op), d.jobs_data[j]? = some job ∧
          t + 1 < job.length ∧ a = VarRef.start j (t + 1) ∧
          b = VarRef.endv j t)) := by
  have heq : ∀ d : Data, createConstrs d (createVars d) =
      Except.ok { (createVars d).model with
        constraints :=
          ((createVars d).model.constraints ++
            (Data.all_machines d).map (fun machine =>
              Constr.noOverlap
                (ddLookup (createVars d).machine_to_intervals machine))) ++
          precExpected 0 d.jobs_data } := by
    intro d
    unfold createConstrs
    rw [precAll_eq d d.jobs_data 0 (by intro i job h; simpa using h)]
    rfl
  constructor
  · intro d
    rw [heq d]
    rfl
  · intro d m hm
    rw [heq d] at hm
    cases hm
    constructor
    · intro j t job hjob ht
      refine List.mem_append_right _ ?_
      rw [mem_precExpected]
      exact ⟨j, job, t, hjob, ht, by rw [Nat.zero_add]⟩
    · intro a b hab
      rcases List.mem_append.mp hab with h | h
      · rcases List.mem_append.mp h with h' | h'
        · rw [createVars_constraints] at h'
          cases h'
        · obtain ⟨machine, _, hcon⟩ := List.mem_map.mp h'
          cases hcon
      · rw [mem_precExpected] at h
        obtain ⟨i, job, t, hjob, ht, hc⟩ := h
        rw [Nat.zero_add] at hc
        cases hc
        exact ⟨i, t, job, hjob, ht, rfl, rfl⟩

/-- The model state built by the main-block pipeline after `createVars`
and `createConstrs` (before the objective). -/
def model0 : CpModel :=
  match createConstrs data0 (createVars data0) with
  | Except.ok m => m
  | Except.error _ => CpModel.empty

/-- Witness for `createConstrs_precedence`: on the main-block instance the
build succeeds and the precedence constraint of job 0's first consecutive
pair is posted. -/
theorem createConstrs_precedence_witness :
    exOk (createConstrs data0 (createVars data0)) = true ∧
    Constr.geC (VarRef.start 0 1) (VarRef.endv 0 0) ∈ model0.constraints :=
  ⟨createConstrs_precedence.1 data0,
   (createConstrs_precedence.2 data0 model0 rfl).1 0 0
     [(0, 3), (1, 2), (2, 2)] rfl (by decide)⟩

/-! ### Objective construction (`createObj`) -/

/-- The `end` variable of the last operation of each job, from `job_id = j`
on (the comprehension's value when every lookup succeeds). -/
def lastEndsExpected : Nat → JobsData → List VarRef
  | _, [] => []
  | j, job :: rest =>
    VarRef.endv j (job.length - 1) :: lastEndsExpected (j + 1) rest

theorem lastEnds_eq (d : Data) :
    ∀ (sub : JobsData) (j0 : Nat),
      (∀ (i : Nat) (job : List Op), sub[i]? = some job →
        d.jobs_data[j0 + i]? = some job) →
      (∀ job ∈ sub, job ≠ []) →
      lastEnds (createVars d).all_tasks j0 sub =
        Except.ok (lastEndsExpected j0 sub) := by
  intro sub
  induction sub with
  | nil => intro j0 _ _; rfl
  | cons job rest ih =>
    intro j0 hsub hne
    have hjob : d.jobs_data[j0]? = some job := by
      have := hsub 0 job (by simp)
      simpa using this
    have hlen : 0 < job.length := by
      have := hne job (List.mem_cons_self job rest)
      cases job with
      | nil => exact absurd rfl this
      | cons a l => simp
    have hlook : dictLookup (createVars d).all_tasks (j0, job.length - 1) =
        some (taskVarsFor j0 (job.length - 1)) := by
      rw [allTasks_lookup, hjob]
      have hlt : job.length - 1 < job.length := by omega
      simp [hlt]
    show (match dictLookup (createVars d).all_tasks (j0, job.length - 1) with
      | some tv =>
        (lastEnds (createVars d).all_tasks (j0 + 1) rest).map
          (fun r => tv.endv :: r)
      | none => Except.error PyError.keyError) = _
    rw [hlook, ih (j0 + 1) ?_ (fun job' hj => hne job' (List.mem_cons_of_mem job hj))]
    · rfl
    · intro i job' hi
      have := hsub (i + 1) job' (by simpa using hi)
      have harith : j0 + (i + 1) = (j0 + 1) + i := by omega
      rwa [harith] at this

theorem lastEndsExpected_length :
    ∀ (sub : JobsData) (j0 : Nat),
      (lastEndsExpected j0 sub).length = sub.length := by
  intro sub
  induction sub with
  | nil => intro j0; rfl
  | cons job rest ih =>
    intro j0
    show (lastEndsExpected (j0 + 1) rest).length + 1 = rest.length + 1
    rw [ih (j0 + 1)]

theorem lastEndsExpected_get :
    ∀ (sub : JobsData) (j0 i : Nat) (job : List Op),
      sub[i]? = some job →
      (lastEndsExpected j0 sub)[i]? =
        some (VarRef.endv (j0 + i) (job.length - 1)) := by
  intro sub
  induction sub with
  | nil => intro j0 i job h; simp at h
  | cons job' rest ih =>
    intro j0 i job h
    cases i with
    | zero =>
      have : job' = job := by simpa using h
      subst this
      simp [lastEndsExpected]
    | succ i =>
      have hr := ih (j0 + 1) i job (by simpa using h)
      simp only [lastEndsExpected, List.getElem?_cons_succ]
      rw [hr]
      have e : j0 + 1 + i = j0 + (i + 1) := by omega
      rw [e]

/-- C3: on a state built by `createVars` for an instance whose jobs are
all nonempty, `createObj` extends the model with exactly one new integer
variable — named `makespan`, over `[0, horizon]` — posts exactly one new
constraint, a max-equality binding `makespan` to the list holding, for
every job, the `end` variable of its last operation, and sets minimizing
`makespan` as the objective. -/
theorem createObj_spec (d : Data) (m : CpModel)
    (hne : ∀ job ∈ d.jobs_data, job ≠ []) :
    createObj d (createVars d).all_tasks m =
      Except.ok { m with
        int_vars := m.int_vars ++ [(VarRef.makespan, 0, d.horizon, "makespan")],
        constraints := m.constraints ++
          [Constr.maxEq VarRef.makespan (lastEndsExpected 0 d.jobs_data)],
        minimize_obj := some VarRef.makespan } ∧
    (lastEndsExpected 0 d.jobs_data).length = d.jobs_data.length ∧
    (∀ (j : Nat) (job : List Op), d.jobs_data[j]? = some job →
      (lastEndsExpected 0 d.jobs_data)[j]? =
        some (VarRef.endv j (job.length - 1))) := by
  refine ⟨?_, lastEndsExpected_length d.jobs_data 0, ?_⟩
  · unfold createObj
    rw [lastEnds_eq d d.jobs_data 0 (by intro i job h; simpa using h) hne]
    rfl
  · intro j job hjob
    have := lastEndsExpected_get d.jobs_data 0 j job hjob
    simpa using this

/-- Witness for `createObj_spec`: the main-block instance, starting from
the empty model. -/
theorem createObj_spec_witness :
    createObj data0 (createVars data0).all_tasks CpModel.empty =
      Except.ok { CpModel.empty with
        int_vars := CpModel.empty.int_vars ++
          [(VarRef.makespan, 0, data0.horizon, "makespan")],
        constraints := CpModel.empty.constraints ++
          [Constr.maxEq VarRef.makespan (lastEndsExpected 0 data0.jobs_data)],
        minimize_obj := some VarRef.makespan } ∧
    (lastEndsExpected 0 data0.jobs_data).length = data0.jobs_data.length :=
  ⟨(createObj_spec data0 CpModel.empty (by decide)).1,
   (createObj_spec data0 CpModel.empty (by decide)).2.1⟩

/-! ### Solution extraction (`extract_solution`) -/

/-- The value of the extraction loop when every dict lookup succeeds:
the per-machine `defaultdict` of assigned tasks. -/
def extractBuckets (value : VarRef → Int) (d : Data) :
    List (Int × List AssignedTask) :=
  (enumTasks d.jobs_data).foldl
    (fun acc x => ddAppend acc x.2.1
      { start := value (VarRef.start x.1.1 x.1.2), job := x.1.1,
        index := x.1.2, duration := x.2.2 }) []

theorem mem_enumJob (j : Nat) :
    ∀ (job : List Op) (t0 : Nat) (x : (Nat × Nat) × Op),
      x ∈ enumJob j t0 job →
      x.1.1 = j ∧ t0 ≤ x.1.2 ∧ x.1.2 - t0 < job.length := by
  intro job
  induction job with
  | nil => intro t0 x h; cases h
  | cons task rest ih =>
    intro t0 x h
    rcases List.mem_cons.mp h with h1 | h2
    · subst h1; exact ⟨rfl, le_refl t0, by simp⟩
    · obtain ⟨e1, e2, e3⟩ := ih (t0 + 1) x h2
      exact ⟨e1, by omega, by simp; omega⟩

theorem mem_enumTasksFrom :
    ∀ (sub : JobsData) (j0 : Nat) (x : (Nat × Nat) × Op),
      x ∈ enumTasksFrom j0 sub →
      ∃ (i : Nat) (job : List Op), sub[i]? = some job ∧
        x.1.1 = j0 + i ∧ x.1.2 < job.length := by
  intro sub
  induction sub with
  | nil => intro j0 x h; cases h
  | cons job rest ih =>
    intro j0 x h
    rcases List.mem_append.mp h with h1 | h2
    · obtain ⟨e1, e2, e3⟩ := mem_enumJob j0 job 0 x h1
      exact ⟨0, job, by simp, by omega, by omega⟩
    · obtain ⟨i, job', hjob', e1, e2⟩ := ih (j0 + 1) x h2
      exact ⟨i + 1, job', by simpa using hjob', by omega, e2⟩

theorem enum_lookup (d : Data) :
    ∀ x ∈ enumTasks d.jobs_data,
      dictLookup (createVars d).all_tasks x.1 =
        some (taskVarsFor x.1.1 x.1.2) := by
  intro x hx
  obtain ⟨i, job, hjob, e1, e2⟩ := mem_enumTasksFrom d.jobs_data 0 x hx
  rcases x with ⟨⟨j, t⟩, op⟩
  simp only at e1 e2
  subst e1
  rw [allTasks_lookup, Nat.zero_add] at *
  rw [hjob]
  simp [e2]

theorem foldlM_extract_ok (value : VarRef → Int) (d : Data) :
    ∀ (l : List ((Nat × Nat) × Op)) (acc : List (Int × List AssignedTask)),
      (∀ x ∈ l, dictLookup (createVars d).all_tasks x.1 =
        some (taskVarsFor x.1.1 x.1.2)) →
      l.foldlM (extractStep value (createVars d).all_tasks) acc =
        Except.ok (l.foldl
          (fun acc x => ddAppend acc x.2.1
            { start := value (VarRef.start x.1.1 x.1.2), job := x.1.1,
              index := x.1.2, duration := x.2.2 }) acc) := by
  intro l
  induction l with
  | nil => intro acc _; rfl
  | cons x rest ih =>
    intro acc hl
    have hx := hl x (List.mem_cons_self x rest)
    rw [List.foldlM_cons]
    have hstep : extractStep value (createVars d).all_tasks acc x =
        Except.ok (ddAppend acc x.2.1
          { start := value (VarRef.start x.1.1 x.1.2), job := x.1.1,
            index := x.1.2, duration := x.2.2 }) := by
      unfold extractStep
      rw [hx]
      rfl
    rw [hstep]
    show rest.foldlM (extractStep value (createVars d).all_tasks) _ = _
    rw [ih _ (fun y hy => hl y (List.mem_cons_of_mem x hy))]
    rfl

/-- `extract_solution` on a consistent state and a successful status. -/
theorem extract_ok (status : CpStatus) (value : VarRef → Int) (d : Data)
    (hs : status = CpStatus.OPTIMAL ∨ status = CpStatus.FEASIBLE) :
    extract_solution status value d (createVars d).all_tasks =
      Except.ok (some (extractBuckets value d)) := by
  unfold extract_solution
  rw [if_neg (by simp [hs])]
  rw [foldlM_extract_ok value d (enumTasks d.jobs_data) [] (enum_lookup d)]
  rfl

/-- Total number of assigned tasks over all buckets. -/
def bucketCount {α : Type} (m : List (Int × List α)) : Nat :=
  (m.map (fun p => p.2.length)).sum

theorem bucketCount_cons {α : Type} (p : Int × List α)
    (rest : List (Int × List α)) :
    bucketCount (p :: rest) = p.2.length + bucketCount rest := by
  simp [bucketCount]

theorem bucketCount_ddAppend {α : Type} :
    ∀ (m : List (Int × List α)) (k : Int) (v : α),
      bucketCount (ddAppend m k v) = bucketCount m + 1 := by
  intro m
  induction m with
  | nil => intro k v; simp [ddAppend, bucketCount]
  | cons p rest ih =>
    intro k v
    unfold ddAppend
    by_cases hk : p.1 == k
    · rw [if_pos hk, bucketCount_cons, bucketCount_cons]
      simp [List.length_append]
      omega
    · rw [if_neg hk, bucketCount_cons, bucketCount_cons, ih k v]
      omega

theorem bucketCount_extract_fold (value : VarRef → Int) :
    ∀ (l : List ((Nat × Nat) × Op)) (acc : List (Int × List AssignedTask)),
      bucketCount (l.foldl
        (fun acc x => ddAppend acc x.2.1
          { start := value (VarRef.start x.1.1 x.1.2), job := x.1.1,
            index := x.1.2, duration := x.2.2 }) acc) =
      bucketCount acc + l.length := by
  intro l
  induction l with
  | nil => intro acc; rfl
  | cons x rest ih =>
    intro acc
    rw [List.foldl_cons, ih, bucketCount_ddAppend]
    simp
    omega

theorem enumJob_length (j : Nat) :
    ∀ (job : List Op) (t0 : Nat), (enumJob j t0 job).length = job.length := by
  intro job
  induction job with
  | nil => intro t0; rfl
  | cons task rest ih =>
    intro t0
    show (enumJob j (t0 + 1) rest).length + 1 = rest.length + 1
    rw [ih (t0 + 1)]

theorem enumTasksFrom_length :
    ∀ (sub : JobsData) (j0 : Nat),
      (enumTasksFrom j0 sub).length = (sub.map List.length).sum := by
  intro sub
  induction sub with
  | nil => intro j0; rfl
  | cons job rest ih =>
    intro j0
    show (enumJob j0 0 job ++ enumTasksFrom (j0 + 1) rest).length = _
    rw [List.length_append, enumJob_length, ih (j0 + 1)]
    simp

theorem ddLookup_nil {α : Type} (q : Int) : ddLookup ([] : List (Int × List α)) q = [] := rfl

theorem ddLookup_cons {α : Type} (p : Int × List α) (rest : List (Int × List α))
    (q : Int) :
    ddLookup (p :: rest) q = if p.1 == q then p.2 else ddLookup rest q := by
  unfold ddLookup
  cases h : p.1 == q with
  | true => simp [List.find?_cons, h]
  | false => simp [List.find?_cons, h]

theorem ddLookup_ddAppend {α : Type} :
    ∀ (m : List (Int × List α)) (k : Int) (v : α) (q : Int),
      ddLookup (ddAppend m k v) q =
        if q = k then ddLookup m q ++ [v] else ddLookup m q := by
  intro m
  induction m with
  | nil =>
    intro k v q
    show ddLookup [(k, [v])] q = _
    rw [ddLookup_cons, ddLookup_nil]
    by_cases hq : q = k
    · subst hq
      simp
    · have hf : (k == q) = false := by
        simp
        exact fun h => hq h.symm
      simp [hf, hq]
  | cons p rest ih =>
    intro k v q
    unfold ddAppend
    by_cases hpk : p.1 = k
    · rw [if_pos (by simp [hpk])]
      rw [ddLookup_cons, ddLookup_cons]
      by_cases hq : q = k
      · subst hq
        simp [hpk]
      · have hf : (p.1 == q) = false := by
          simp [hpk]
          exact fun h => hq h.symm
        simp [hf, hq]
    · rw [if_neg (by simp [hpk])]
      rw [ddLookup_cons, ddLookup_cons]
      by_cases hpq : p.1 = q
      · have hq : ¬(q = k) := fun h => hpk (by rw [hpq, h])
        simp [hpq, hq]
      · have hf : (p.1 == q) = false := by simp [hpq]
        simp [hf, ih k v q]

theorem ddLookup_extract_fold (value : VarRef → Int) :
    ∀ (l : List ((Nat × Nat) × Op)) (acc : List (Int × List AssignedTask))
      (mach : Int),
      ddLookup (l.foldl
        (fun acc x => ddAppend acc x.2.1
          { start := value (VarRef.start x.1.1 x.1.2), job := x.1.1,
            index := x.1.2, duration := x.2.2 }) acc) mach =
      ddLookup acc mach ++
        (l.filter (fun x => x.2.1 == mach)).map
          (fun x =>
            ({ start := value (VarRef.start x.1.1 x.1.2), job := x.1.1,
               index := x.1.2, duration := x.2.2 } : AssignedTask)) := by
  intro l
  induction l with
  | nil => intro acc mach; simp
  | cons x rest ih =>
    intro acc mach
    rw [List.foldl_cons, ih, ddLookup_ddAppend]
    by_cases hm : mach = x.2.1
    · rw [if_pos hm]
      have hf : (x.2.1 == mach) = true := by simp [hm]
      rw [List.filter_cons, if_pos hf]
      simp
    · rw [if_neg hm]
      have hf : ¬((x.2.1 == mach) = true) := by
        simp
        exact fun h => hm h.symm
      rw [List.filter_cons, if_neg hf]

/-- Number of assigned tasks produced by a successful extraction: one per
operation of the instance. -/
theorem extract_count (value : VarRef → Int) (d : Data) :
    bucketCount (extractBuckets value d) = (d.jobs_data.map List.length).sum := by
  unfold extractBuckets
  rw [bucketCount_extract_fold]
  unfold enumTasks
  rw [enumTasksFrom_length]
  show bucketCount ([] : List (Int × List AssignedTask)) + _ = _
  simp [bucketCount]


/-- C4: `extract_solution` returns `None` (reading no variable: the result
is the same for every assignment function `value`) whenever the status is
not `OPTIMAL`/`FEASIBLE`, and returns a machine-indexed mapping (`some`
buckets, not `None`) on `OPTIMAL`/`FEASIBLE`. -/
theorem extract_status_gate :
    (∀ (status : CpStatus) (value : VarRef → Int) (d : Data)
      (tasks : List ((Nat × Nat) × TaskVars)),
      ¬(status = CpStatus.OPTIMAL ∨ status = CpStatus.FEASIBLE) →
      extract_solution status value d tasks = Except.ok none) ∧
    (∀ (status : CpStatus) (value : VarRef → Int) (d : Data),
      (status = CpStatus.OPTIMAL ∨ status = CpStatus.FEASIBLE) →
      extract_solution status value d (createVars d).all_tasks =
        Except.ok (some (extractBuckets value d))) := by
  constructor
  · intro status value d tasks h
    unfold extract_solution
    rw [if_pos h]
  · intro status value d h
    exact extract_ok status value d h

/-- A fixed assignment reader for witnesses. -/
def value0 : VarRef → Int := fun _ => 0

/-- Witness for `extract_status_gate` at concrete inputs. -/
theorem extract_status_gate_witness :
    extract_solution CpStatus.INFEASIBLE value0 data0 [] = Except.ok none ∧
    extract_solution CpStatus.OPTIMAL value0 data0 (createVars data0).all_tasks =
      Except.ok (some (extractBuckets value0 data0)) :=
  ⟨extract_status_gate.1 CpStatus.INFEASIBLE value0 data0 [] (by decide),
   extract_status_gate.2 CpStatus.OPTIMAL value0 data0 (Or.inl rfl)⟩

/-- C5: on a successful solve the extraction returns the buckets in which
every `(job_id, task_id)` coordinate contributed exactly one Assigned
Task, appended to the bucket of that operation's machine — so each
machine's bucket holds exactly the instance's operations on that machine,
in discovery order, and the total count over all buckets equals the total
number of operations of the instance. -/
theorem extract_counts (status : CpStatus) (value : VarRef → Int) (d : Data)
    (hs : status = CpStatus.OPTIMAL ∨ status = CpStatus.FEASIBLE) :
    extract_solution status value d (createVars d).all_tasks =
      Except.ok (some (extractBuckets value d)) ∧
    bucketCount (extractBuckets value d) = (d.jobs_data.map List.length).sum ∧
    (∀ mach : Int, ddLookup (extractBuckets value d) mach =
      ((enumTasks d.jobs_data).filter (fun x => x.2.1 == mach)).map
        (fun x =>
          ({ start := value (VarRef.start x.1.1 x.1.2), job := x.1.1,
             index := x.1.2, duration := x.2.2 } : AssignedTask))) := by
  refine ⟨extract_ok status value d hs, extract_count value d, ?_⟩
  intro mach
  unfold extractBuckets
  rw [ddLookup_extract_fold]
  rfl

/-- Witness for `extract_counts`: the main-block instance has 8 operations. -/
theorem extract_counts_witness :
    extract_solution CpStatus.FEASIBLE value0 data0 (createVars data0).all_tasks =
      Except.ok (some (extractBuckets value0 data0)) ∧
    bucketCount (extractBuckets value0 data0) = 8 :=
  ⟨(extract_counts CpStatus.FEASIBLE value0 data0 (Or.inr rfl)).1,
   ((extract_counts CpStatus.FEASIBLE value0 data0 (Or.inr rfl)).2.1).trans
     (by decide)⟩

/-! ### The formatter's sort order -/

/-- Unfolding of the Python tuple comparison to a proposition. -/
theorem taskLe_iff (a b : AssignedTask) :
    taskLe a b = true ↔
      (a.start < b.start ∨ (a.start = b.start ∧
        (a.job < b.job ∨ (a.job = b.job ∧
          (a.index < b.index ∨ (a.index = b.index ∧
            a.duration ≤ b.duration)))))) := by
  unfold taskLe
  split_ifs <;> simp <;> omega

theorem taskLe_trans (a b c : AssignedTask) :
    taskLe a b → taskLe b c → taskLe a c := by
  simp only [taskLe_iff]
  omega

theorem taskLe_total (a b : AssignedTask) : taskLe a b || taskLe b a := by
  rw [Bool.or_eq_true]
  simp only [taskLe_iff]
  omega

/-- The `(start, job_id, task_id)` lexicographic (weak) order the spec
names for the per-machine rendering. -/
def tripleLe (a b : AssignedTask) : Prop :=
  a.start < b.start ∨ (a.start = b.start ∧
    (a.job < b.job ∨ (a.job = b.job ∧ a.index ≤ b.index)))

theorem taskLe_tripleLe {a b : AssignedTask} (h : taskLe a b = true) :
    tripleLe a b := by
  rw [taskLe_iff] at h
  unfold tripleLe
  omega

theorem pySort_perm (l : List AssignedTask) : (pySort l).Perm l :=
  List.mergeSort_perm l taskLe

theorem pySort_sorted (l : List AssignedTask) :
    (pySort l).Pairwise (fun a b => taskLe a b = true) := by
  have h := @List.sorted_mergeSort AssignedTask taskLe taskLe_trans taskLe_total l
  exact h

theorem pySort_of_sorted {l : List AssignedTask}
    (h : l.Pairwise (fun a b => taskLe a b = true)) : pySort l = l :=
  List.mergeSort_of_sorted h

theorem pySort_idem (l : List AssignedTask) : pySort (pySort l) = pySort l :=
  pySort_of_sorted (pySort_sorted l)

theorem pySort_sorted_triple (l : List AssignedTask) :
    (pySort l).Pairwise tripleLe :=
  (pySort_sorted l).imp (fun h => taskLe_tripleLe h)

/-! ### The formatter's machine loop -/

/-- Concatenation of a list of strings. -/
def strJoin : List String → String
  | [] => ""
  | s :: rest => s ++ strJoin rest

theorem ddLookup_ddSet {α : Type} :
    ∀ (m : List (Int × List α)) (k : Int) (v : List α) (q : Int),
      ddLookup (ddSet m k v) q = if q = k then v else ddLookup m q := by
  intro m
  induction m with
  | nil =>
    intro k v q
    show ddLookup [(k, v)] q = _
    rw [ddLookup_cons, ddLookup_nil]
    by_cases hq : q = k
    · subst hq
      simp
    · have hf : (k == q) = false := by
        simp
        exact fun h => hq h.symm
      simp [hf, hq]
  | cons p rest ih =>
    intro k v q
    unfold ddSet
    by_cases hpk : p.1 = k
    · rw [if_pos (by simp [hpk])]
      rw [ddLookup_cons, ddLookup_cons]
      by_cases hq : q = k
      · subst hq
        simp [hpk]
      · have hf : (p.1 == q) = false := by
          simp [hpk]
          exact fun h => hq h.symm
        simp [hf, hq]
    · rw [if_neg (by simp [hpk])]
      rw [ddLookup_cons, ddLookup_cons]
      by_cases hpq : p.1 = q
      · have hq : ¬(q = k) := fun h => hpk (by rw [hpq, h])
        simp [hpq, hq]
      · have hf : (p.1 == q) = false := by simp [hpq]
        simp [hf, ih k v q]

theorem pyRange_nodup (n : Int) : (pyRange n).Nodup := by
  unfold pyRange
  refine List.Nodup.map ?_ (List.nodup_range _)
  intro a b h
  simpa using h

theorem format_fold_fst :
    ∀ (ms : List Int) (s : String) (aj : List (Int × List AssignedTask)),
      ms.Nodup →
      (ms.foldl formatStep (s, aj)).1 =
        s ++ strJoin (ms.map (fun m => formatMachine (pySort (ddLookup aj m)) m)) := by
  intro ms
  induction ms with
  | nil => intro s aj _; simp [strJoin]
  | cons m rest ih =>
    intro s aj hnd
    obtain ⟨hm, hrest⟩ := List.nodup_cons.mp hnd
    rw [List.foldl_cons]
    show (rest.foldl formatStep
      (s ++ formatMachine (pySort (ddLookup aj m)) m,
        ddSet aj m (pySort (ddLookup aj m)))).1 = _
    rw [ih _ _ hrest]
    have hmap : rest.map (fun q =>
        formatMachine (pySort (ddLookup (ddSet aj m (pySort (ddLookup aj m))) q)) q) =
        rest.map (fun q => formatMachine (pySort (ddLookup aj q)) q) := by
      apply List.map_congr_left
      intro q hq
      have hne : ¬(q = m) := fun h => hm (h ▸ hq)
      rw [ddLookup_ddSet, if_neg hne]
    rw [hmap]
    show _ = s ++ (formatMachine (pySort (ddLookup aj m)) m ++
      strJoin (rest.map (fun q => formatMachine (pySort (ddLookup aj q)) q)))
    rw [String.append_assoc]

theorem format_fold_snd :
    ∀ (ms : List Int) (s : String) (aj : List (Int × List AssignedTask)) (q : Int),
      ms.Nodup →
      ddLookup ((ms.foldl formatStep (s, aj)).2) q =
        if q ∈ ms then pySort (ddLookup aj q) else ddLookup aj q := by
  intro ms
  induction ms with
  | nil => intro s aj q _; simp
  | cons m rest ih =>
    intro s aj q hnd
    obtain ⟨hm, hrest⟩ := List.nodup_cons.mp hnd
    rw [List.foldl_cons]
    show ddLookup ((rest.foldl formatStep
      (s ++ formatMachine (pySort (ddLookup aj m)) m,
        ddSet aj m (pySort (ddLookup aj m)))).2) q = _
    rw [ih _ _ q hrest]
    by_cases hq : q ∈ rest
    · have hqm : ¬(q = m) := fun h => hm (h ▸ hq)
      rw [if_pos hq, if_pos (List.mem_cons_of_mem m hq), ddLookup_ddSet, if_neg hqm]
    · rw [if_neg hq, ddLookup_ddSet]
      by_cases hqm : q = m
      · subst hqm
        rw [if_pos rfl, if_pos (List.mem_cons_self q rest)]
      · rw [if_neg hqm, if_neg (by simp [hqm, hq])]

/-- C7: the text built by `format_solution` is, machine by machine in
`all_machines` order, the two-line block rendered from that machine's
bucket sorted by Python's tuple order; the rendered list is a permutation
of the bucket and is weakly sorted by `(start, job_id, task_id)`
lexicographic order — smaller starts first, ties broken by job id, then by
task id. -/
theorem format_renders_sorted (d : Data) (aj : List (Int × List AssignedTask)) :
    (format_solution d aj).1 =
      strJoin (d.all_machines.map
        (fun m => formatMachine (pySort (ddLookup aj m)) m)) ∧
    (∀ m : Int, (pySort (ddLookup aj m)).Perm (ddLookup aj m) ∧
      (pySort (ddLookup aj m)).Pairwise tripleLe) := by
  constructor
  · unfold format_solution
    rw [format_fold_fst d.all_machines "" aj (pyRange_nodup d.machines_count)]
    rfl
  · intro m
    exact ⟨pySort_perm _, pySort_sorted_triple _⟩

/-- C8: formatting is idempotent — calling `format_solution` a second time
on the (mutated) schedule left behind by a first call produces
character-for-character the same text. -/
theorem format_idempotent (d : Data) (aj : List (Int × List AssignedTask)) :
    (format_solution d (format_solution d aj).2).1 = (format_solution d aj).1 := by
  unfold format_solution
  rw [format_fold_fst d.all_machines "" _ (pyRange_nodup d.machines_count),
      format_fold_fst d.all_machines "" aj (pyRange_nodup d.machines_count)]
  congr 1
  apply congrArg strJoin
  apply List.map_congr_left
  intro m hm
  rw [format_fold_snd d.all_machines "" aj m (pyRange_nodup d.machines_count),
      if_pos hm, pySort_idem]

/-! ### Line structure of the formatted output -/

/-- Number of newline characters in a string. -/
def countNL (s : String) : Nat := s.data.countP (fun c => c == '\n')

theorem countNL_append (a b : String) :
    countNL (a ++ b) = countNL a + countNL b := by
  unfold countNL
  rw [String.data_append, List.countP_append]

theorem digitChar_ne_nl (n : Nat) : (Nat.digitChar n == '\n') = false := by
  unfold Nat.digitChar
  by_cases h0 : n = 0
  · rw [if_pos h0]
    decide
  rw [if_neg h0]
  by_cases h1 : n = 1
  · rw [if_pos h1]
    decide
  rw [if_neg h1]
  by_cases h2 : n = 2
  · rw [if_pos h2]
    decide
  rw [if_neg h2]
  by_cases h3 : n = 3
  · rw [if_pos h3]
    decide
  rw [if_neg h3]
  by_cases h4 : n = 4
  · rw [if_pos h4]
    decide
  rw [if_neg h4]
  by_cases h5 : n = 5
  · rw [if_pos h5]
    decide
  rw [if_neg h5]
  by_cases h6 : n = 6
  · rw [if_pos h6]
    decide
  rw [if_neg h6]
  by_cases h7 : n = 7
  · rw [if_pos h7]
    decide
  rw [if_neg h7]
  by_cases h8 : n = 8
  · rw [if_pos h8]
    decide
  rw [if_neg h8]
  by_cases h9 : n = 9
  · rw [if_pos h9]
    decide
  rw [if_neg h9]
  by_cases h10 : n = 10
  · rw [if_pos h10]
    decide
  rw [if_neg h10]
  by_cases h11 : n = 11
  · rw [if_pos h11]
    decide
  rw [if_neg h11]
  by_cases h12 : n = 12
  · rw [if_pos h12]
    decide
  rw [if_neg h12]
  by_cases h13 : n = 13
  · rw [if_pos h13]
    decide
  rw [if_neg h13]
  by_cases h14 : n = 14
  · rw [if_pos h14]
    decide
  rw [if_neg h14]
  by_cases h15 : n = 15
  · rw [if_pos h15]
    decide
  rw [if_neg h15]
  decide

theorem toDigitsCore_nl :
    ∀ (fuel n : Nat) (ds : List Char),
      ds.countP (fun c => c == '\n') = 0 →
      (Nat.toDigitsCore 10 fuel n ds).countP (fun c => c == '\n') = 0 := by
  intro fuel
  induction fuel with
  | zero => intro n ds h; exact h
  | succ fuel ih =>
    intro n ds h
    have hcons : (Nat.digitChar (n % 10) :: ds).countP (fun c => c == '\n') = 0 := by
      rw [List.countP_cons, digitChar_ne_nl]
      simpa using h
    show (if n / 10 = 0 then Nat.digitChar (n % 10) :: ds
      else Nat.toDigitsCore 10 fuel (n / 10) (Nat.digitChar (n % 10) :: ds)).countP
        (fun c => c == '\n') = 0
    split_ifs
    · exact hcons
    · exact ih (n / 10) _ hcons

theorem natRepr_nl (n : Nat) : countNL (Nat.repr n) = 0 := by
  show (Nat.toDigits 10 n).countP (fun c => c == '\n') = 0
  exact toDigitsCore_nl (n + 1) n [] rfl

theorem intRepr_nl (i : Int) : countNL (Int.repr i) = 0 := by
  cases i with
  | ofNat n => exact natRepr_nl n
  | negSucc n =>
    show countNL ("-" ++ Nat.repr (n + 1)) = 0
    rw [countNL_append, natRepr_nl]
    rfl

theorem spaces_nl (k : Nat) : countNL (String.mk (List.replicate k ' ')) = 0 := by
  unfold countNL
  rw [List.countP_eq_zero]
  intro c hc
  have : c = ' ' := List.eq_of_mem_replicate hc
  subst this
  simp

theorem padRight_nl (s : String) (w : Nat) :
    countNL (padRight s w) = countNL s := by
  unfold padRight
  rw [countNL_append, spaces_nl]
  rfl

theorem taskName_nl (a : AssignedTask) : countNL (taskName a) = 0 := by
  unfold taskName
  simp only [countNL_append, natRepr_nl]
  decide

theorem intervalStr_nl (a : AssignedTask) : countNL (intervalStr a) = 0 := by
  unfold intervalStr
  simp only [countNL_append, intRepr_nl]
  decide

theorem row_foldl_nl (f : AssignedTask → String)
    (hf : ∀ a : AssignedTask, countNL (f a) = 0) :
    ∀ (l : List AssignedTask) (s : String),
      countNL (l.foldl (fun acc a => acc ++ padRight (f a) 15) s) = countNL s := by
  intro l
  induction l with
  | nil => intro s; rfl
  | cons a rest ih =>
    intro s
    rw [List.foldl_cons, ih, countNL_append, padRight_nl, hf a]
    rfl

/-- The `sol_line_tasks` row for one machine. -/
def machineRow1 (sorted : List AssignedTask) (machine : Int) : String :=
  sorted.foldl (fun acc a => acc ++ padRight (taskName a) 15)
    ("Machine " ++ Int.repr machine ++ ": ")

/-- The `sol_line` row for one machine. -/
def machineRow2 (sorted : List AssignedTask) : String :=
  sorted.foldl (fun acc a => acc ++ padRight (intervalStr a) 15)
    (String.mk (List.replicate 11 ' '))

theorem formatMachine_eq (sorted : List AssignedTask) (machine : Int) :
    formatMachine sorted machine =
      (machineRow1 sorted machine ++ "\n") ++ (machineRow2 sorted ++ "\n") := rfl

theorem machineRow1_nl (sorted : List AssignedTask) (machine : Int) :
    countNL (machineRow1 sorted machine) = 0 := by
  unfold machineRow1
  rw [row_foldl_nl taskName taskName_nl]
  simp only [countNL_append, intRepr_nl]
  decide

theorem machineRow2_nl (sorted : List AssignedTask) :
    countNL (machineRow2 sorted) = 0 := by
  unfold machineRow2
  rw [row_foldl_nl intervalStr intervalStr_nl, spaces_nl]

theorem strJoin_cons (a : String) (l : List String) :
    strJoin (a :: l) = a ++ strJoin l := rfl

theorem flatMap_pairs_length {α : Type} (f g : α → String) :
    ∀ l : List α, (l.flatMap (fun m => [f m, g m])).length = 2 * l.length := by
  intro l
  induction l with
  | nil => rfl
  | cons m rest ih =>
    show ([f m, g m] ++ rest.flatMap (fun m => [f m, g m])).length = _
    rw [List.length_append, ih]
    simp
    omega

theorem pyRange_length (n : Int) : (pyRange n).length = n.toNat := by
  simp [pyRange]

theorem strJoin_pairs {α : Type} (f g : α → String) :
    ∀ l : List α,
      strJoin ((l.flatMap (fun m => [f m, g m])).map (fun r => r ++ "\n")) =
        strJoin (l.map (fun m => (f m ++ "\n") ++ (g m ++ "\n"))) := by
  intro l
  induction l with
  | nil => rfl
  | cons m rest ih =>
    show strJoin ((([f m, g m] ++ rest.flatMap (fun q => [f q, g q])).map
      (fun r => r ++ "\n"))) = _
    rw [List.map_append]
    show (f m ++ "\n") ++ ((g m ++ "\n") ++
      strJoin ((rest.flatMap (fun q => [f q, g q])).map (fun r => r ++ "\n"))) = _
    rw [ih]
    simp [strJoin_cons, String.append_assoc]

theorem strJoin_nl_count :
    ∀ lines : List String, (∀ s ∈ lines, countNL s = 0) →
      countNL (strJoin (lines.map (fun r => r ++ "\n"))) = lines.length := by
  intro lines
  induction lines with
  | nil => intro _; rfl
  | cons s rest ih =>
    intro h
    show countNL ((s ++ "\n") ++ strJoin (rest.map (fun r => r ++ "\n"))) = _
    rw [countNL_append, countNL_append, ih (fun q hq => h q (List.mem_cons_of_mem s hq)),
        h s (List.mem_cons_self s rest)]
    show 0 + countNL "\n" + rest.length = rest.length + 1
    have : countNL "\n" = 1 := by decide
    omega

/-- The rows of the formatted report, two per machine of `all_machines`,
in loop order. -/
def formatLines (d : Data) (aj : List (Int × List AssignedTask)) : List String :=
  d.all_machines.flatMap (fun m =>
    [machineRow1 (pySort (ddLookup aj m)) m, machineRow2 (pySort (ddLookup aj m))])

/-- C10: `format_solution` emits one two-line block for every machine id in
`range(machines_count)` — including machines with no assigned task, whose
block has zero task columns — so the output text is the concatenation of
exactly `2 * machines_count` newline-terminated lines (each line itself
newline-free), and its total newline count is `2 * machines_count`. -/
theorem format_line_blocks (d : Data) (aj : List (Int × List AssignedTask)) :
    (formatLines d aj).length = 2 * d.machines_count.toNat ∧
    (∀ s ∈ formatLines d aj, countNL s = 0) ∧
    (format_solution d aj).1 =
      strJoin ((formatLines d aj).map (fun r => r ++ "\n")) ∧
    countNL (format_solution d aj).1 = 2 * d.machines_count.toNat ∧
    (∀ m : Int, ddLookup aj m = [] →
      formatMachine (pySort (ddLookup aj m)) m =
        ("Machine " ++ Int.repr m ++ ": " ++ "\n") ++
          (String.mk (List.replicate 11 ' ') ++ "\n")) := by
  have hlen : (formatLines d aj).length = 2 * d.machines_count.toNat := by
    unfold formatLines
    rw [flatMap_pairs_length]
    show 2 * (pyRange d.machines_count).length = _
    rw [pyRange_length]
  have hmem : ∀ s ∈ formatLines d aj, countNL s = 0 := by
    intro s hs
    unfold formatLines at hs
    obtain ⟨m, _, hsm⟩ := List.mem_flatMap.mp hs
    have hsm' : s = machineRow1 (pySort (ddLookup aj m)) m ∨
        s = machineRow2 (pySort (ddLookup aj m)) := by simpa using hsm
    rcases hsm' with h1 | h2
    · rw [h1]
      exact machineRow1_nl _ _
    · rw [h2]
      exact machineRow2_nl _
  have hout : (format_solution d aj).1 =
      strJoin ((formatLines d aj).map (fun r => r ++ "\n")) := by
    unfold format_solution
    rw [format_fold_fst d.all_machines "" aj (pyRange_nodup d.machines_count)]
    unfold formatLines
    rw [strJoin_pairs]
    have : d.all_machines.map
        (fun m => formatMachine (pySort (ddLookup aj m)) m) =
        d.all_machines.map (fun m =>
          (machineRow1 (pySort (ddLookup aj m)) m ++ "\n") ++
            (machineRow2 (pySort (ddLookup aj m)) ++ "\n")) := by
      apply List.map_congr_left
      intro m _
      exact formatMachine_eq _ m
    rw [this]
    rfl
  refine ⟨hlen, hmem, hout, ?_, ?_⟩
  · rw [hout, strJoin_nl_count (formatLines d aj) hmem, hlen]
  · intro m hm
    rw [hm]
    show formatMachine (List.mergeSort [] taskLe) m = _
    rw [List.mergeSort_nil]
    rfl

/-- Witness for `format_line_blocks`: the main-block machine count is 3,
so an empty schedule still renders 6 newline-terminated lines, and an
unassigned machine's block has zero task columns. -/
theorem format_line_blocks_witness :
    countNL (format_solution data0 []).1 = 6 ∧
    formatMachine (pySort (ddLookup ([] : List (Int × List AssignedTask)) 0)) 0 =
      ("Machine " ++ Int.repr 0 ++ ": " ++ "\n") ++
        (String.mk (List.replicate 11 ' ') ++ "\n") :=
  ⟨((format_line_blocks data0 []).2.2.2.1).trans (by decide),
   (format_line_blocks data0 []).2.2.2.2 0 rfl⟩
